import Mathlib

/-!
# Verification of the go-naive-bayes classifier

A shallow embedding of the repository's two source files, `tokenizer.go` and
`main.go`, together with proofs of the specification's claims about them.

Modelling conventions:
* Go strings are Lean `String`s (a `List Char` of runes); Go's rune-wise
  processing matches `String.data`.
* Go maps are association lists with unique keys; `alookup`/`aset` mirror
  Go's map read (with ok-flag) and write.  Integer-valued map reads with
  Go's zero default are `alookupNat`.
* Go `int` counters are `Nat` (the code only ever increments them).
* Go `float64` arithmetic is idealised as exact rational arithmetic `ℚ`
  for value claims; a second, `Option ℚ`-valued view (`priorProbF`,
  `probabilityF`, `classifyF`) tracks finiteness: `none` marks a value
  that IEEE evaluation makes non-finite (NaN or ±Inf).
* `Char.toLower` models Go's `strings.ToLower` on the ASCII range (the
  only range that survives the cleanup regex `[^a-zA-Z 0-9]+`).
-/

/-- The class-label constant `positive` from `main.go`. -/
def positive : String := "positive"

/-- The class-label constant `negative` from `main.go`. -/
def negative : String := "negative"

/-! ## Association-list model of Go maps -/

/-- Go map read with ok-flag: `v, ok := m[k]`. -/
def alookup {α : Type} (m : List (String × α)) (k : String) : Option α :=
  (m.find? (fun p => p.1 == k)).map Prod.snd

/-- Go map write `m[k] = v`: update in place when present, append otherwise. -/
def aset {α : Type} (m : List (String × α)) (k : String) (v : α) :
    List (String × α) :=
  if m.any (fun p => p.1 == k) then
    m.map (fun p => if p.1 == k then (k, v) else p)
  else m ++ [(k, v)]

/-- Go read of an int-valued map, with the zero default for absent keys. -/
def alookupNat (m : List (String × Nat)) (k : String) : Nat :=
  (alookup m k).getD 0

/-- Go read of a slice-valued map, with the nil default for absent keys. -/
def alookupList (m : List (String × List String)) (k : String) : List String :=
  (alookup m k).getD []

/-! ## Tokenizer (`tokenizer.go`) -/

/-- The stop-word set of `tokenizer.go`, as a list (membership only). -/
def stopWords : List String :=
  ["i", "me", "my", "myself", "we", "our", "ours",
   "ourselves", "you", "your", "yours", "yourself", "yourselves",
   "he", "him", "his", "himself", "she", "her", "hers",
   "herself", "it", "its", "itself", "they", "them", "their",
   "theirs", "themselves", "what", "which", "who", "whom", "this",
   "that", "these", "those", "am", "is", "are", "was",
   "were", "be", "been", "being", "have", "has", "had",
   "having", "do", "does", "did", "doing", "a", "an",
   "the", "and", "but", "if", "or", "because", "as",
   "until", "while", "of", "at", "by", "for", "with",
   "about", "against", "between", "into", "through", "during",
   "before", "after", "above", "below", "to", "from", "up",
   "down", "in", "out", "on", "off", "over", "under",
   "again", "further", "then", "once", "here", "there", "when",
   "where", "why", "how", "all", "any", "both", "each",
   "few", "more", "most", "other", "some", "such", "no",
   "nor", "not", "only", "same", "so", "than", "too",
   "very", "can", "will", "just", "don\x27t", "should", "should\x27ve",
   "now", "aren\x27t", "couldn\x27t", "didn\x27t", "doesn\x27t", "hasn\x27t", "haven\x27t",
   "isn\x27t", "shouldn\x27t", "wasn\x27t", "weren\x27t", "won\x27t", "wouldn\x27t"]

/-- `isStopWord` from `tokenizer.go`: membership in the stop-word set. -/
def isStopWord (w : String) : Bool :=
  stopWords.contains w

/-- Characters kept by the cleanup regex `[^a-zA-Z 0-9]+` (its complement). -/
def keepChar (c : Char) : Bool :=
  decide (('a' ≤ c ∧ c ≤ 'z') ∨ ('A' ≤ c ∧ c ≤ 'Z') ∨ c = ' ' ∨ ('0' ≤ c ∧ c ≤ '9'))

/-- `clenup` from `tokenizer.go`: lowercase, then delete every character that
is not an ASCII letter, digit or space. -/
def clenup (sentence : String) : String :=
  String.mk ((sentence.data.map Char.toLower).filter keepChar)

/-- Go's `unicode.IsSpace` on the characters it recognises as white space. -/
def isSpaceGo (c : Char) : Bool :=
  c == ' ' || c == '\t' || c == '\n' || c == '\x0B' || c == '\x0C' ||
  c == '\r' || c == '\x85' || c == '\xA0'

/-- Worker for `fields`: splits at white-space runs, accumulating the current
field in reverse in `acc`, and never emits an empty field. -/
def fieldsAux (p : Char → Bool) : List Char → List Char → List (List Char)
  | [], acc => if acc.isEmpty then [] else [acc.reverse]
  | c :: cs, acc =>
    if p c then
      if acc.isEmpty then fieldsAux p cs []
      else acc.reverse :: fieldsAux p cs []
    else fieldsAux p cs (c :: acc)

/-- Go's `strings.Fields`: split around runs of white space, no empty fields. -/
def fields (s : String) : List String :=
  (fieldsAux isSpaceGo s.data []).map String.mk

/-- `tokenize` from `tokenizer.go`: clean up, split into fields, and drop
stop words, preserving the order of the remaining tokens. -/
def tokenize (sentence : String) : List String :=
  (fields (clenup sentence)).filter (fun w => !isStopWord w)

/-! ## Classifier (`main.go`) -/

/-- The `wordFrequency` struct of `main.go`. -/
structure wordFrequency where
  word : String
  counter : List (String × Nat)
deriving DecidableEq

/-- The `classifier` struct of `main.go`. -/
structure classifier where
  dataset : List (String × List String)
  words : List (String × wordFrequency)
deriving DecidableEq

/-- `newClassifier` from `main.go`: empty dataset and word table. -/
def newClassifier : classifier :=
  { dataset := [], words := [] }

/-- `addSentence` from `main.go`: append the sentence to its class's slice. -/
def addSentence (c : classifier) (sentence cl : String) : classifier :=
  { c with dataset := aset c.dataset cl (alookupList c.dataset cl ++ [sentence]) }

/-- `addWord` from `main.go`: initialise a fresh token's counters to
`{positive: 0, negative: 0}` when absent, then increment the requested
class's counter by one. -/
def addWord (c : classifier) (word cl : String) : classifier :=
  let wf : wordFrequency :=
    match alookup c.words word with
    | some wf => wf
    | none => { word := word, counter := [(positive, 0), (negative, 0)] }
  let wf' : wordFrequency :=
    { wf with counter := aset wf.counter cl (alookupNat wf.counter cl + 1) }
  { c with words := aset c.words word wf' }

/-- `train` from `main.go`: for each (sentence, class) pair, record the
sentence and count every token of its tokenization. -/
def train (c : classifier) (data : List (String × String)) : classifier :=
  data.foldl
    (fun c p =>
      let c := addSentence c p.1 p.2
      (tokenize p.1).foldl (fun c w => addWord c w p.2) c)
    c

/-- `priorProb` from `main.go`, in exact arithmetic: the class's share of
training sentences.  (Lean's `ℚ` gives `x / 0 = 0`; the unguarded `0/0`,
which IEEE evaluation turns into NaN, is tracked by `priorProbF`.) -/
def priorProb (c : classifier) (cl : String) : ℚ :=
  ((alookupList c.dataset cl).length : ℚ) /
    (((alookupList c.dataset positive).length + (alookupList c.dataset negative).length : Nat) : ℚ)

/-- `wordCount` from `main.go`.  NOTE: faithfully to the source, the loop
accumulates `wf.counter[positive]` whatever class `cl` is requested. -/
def wordCount (c : classifier) (cl : String) : Nat :=
  c.words.foldl (fun count p => count + alookupNat p.2.counter positive) 0

/-- `totalWordCount` from `main.go`. -/
def totalWordCount (c : classifier) : Nat :=
  wordCount c positive + wordCount c negative

/-- `zeroOneTransform` from `main.go`. -/
def zeroOneTransform (x : Nat) : Nat :=
  if x = 0 then 0 else 1

/-- `totalDistinctWordCount` from `main.go`: one loop accumulating, per token,
whether each class's counter is positive, then the sum of the two tallies. -/
def totalDistinctWordCount (c : classifier) : Nat :=
  let r := c.words.foldl
    (fun acc p =>
      (acc.1 + zeroOneTransform (alookupNat p.2.counter positive),
       acc.2 + zeroOneTransform (alookupNat p.2.counter negative)))
    (0, 0)
  r.1 + r.2

/-- `probability` from `main.go`, in exact arithmetic: the prior, multiplied
per token by the smoothed class likelihood, then divided per token by the
smoothed overall token frequency — two passes, in token order. -/
def probability (c : classifier) (words : List String) (cl : String) : ℚ :=
  let prob := priorProb c cl
  let prob := words.foldl
    (fun prob w =>
      let count : Nat :=
        match alookup c.words w with
        | some wf => alookupNat wf.counter cl
        | none => 0
      prob * (((count : ℚ) + 1) / ((wordCount c cl + totalDistinctWordCount c : Nat) : ℚ)))
    prob
  words.foldl
    (fun prob w =>
      let count : Nat :=
        match alookup c.words w with
        | some wf => alookupNat wf.counter positive + alookupNat wf.counter negative
        | none => 0
      prob / (((count : ℚ) + 1) / ((totalWordCount c + totalDistinctWordCount c : Nat) : ℚ)))
    prob

/-- `classify` from `main.go`: tokenize once, score both classes, and return
the map `{positive: …, negative: …}`. -/
def classify (c : classifier) (sentence : String) : List (String × ℚ) :=
  let words := tokenize sentence
  let posProb := probability c words positive
  let negProb := probability c words negative
  [(positive, posProb), (negative, negProb)]

/-- Go read of the float-valued score map returned by `classify`. -/
def alookupQ (m : List (String × ℚ)) (k : String) : ℚ :=
  ((m.find? (fun p => p.1 == k)).map Prod.snd).getD 0

/-- The decision step of `main` in `main.go`: `negative` unless
`result[positive] > result[negative]`. -/
def mainPredict (result : List (String × ℚ)) : String :=
  if alookupQ result positive > alookupQ result negative then positive
  else negative

/-! ## Finiteness view of the floating-point computations

`none` marks a value that, under IEEE `float64` evaluation of the same
expressions, is non-finite (NaN or ±Inf): exactly the divisions whose
denominator is zero (the code's only sources of non-finite values). -/

/-- Division that records a zero denominator (NaN/Inf under IEEE) as `none`. -/
def qdiv (a b : ℚ) : Option ℚ :=
  if b = 0 then none else some (a / b)

/-- Total number of training sentences recorded, all classes together. -/
def sentenceTotal (c : classifier) : Nat :=
  (alookupList c.dataset positive).length + (alookupList c.dataset negative).length

/-- `priorProb` in the finiteness view: the unguarded division produces a
finite value exactly when at least one training sentence exists (when
`sentenceTotal c = 0` the code evaluates `0/0`, i.e. NaN). -/
def priorProbF (c : classifier) (cl : String) : Option ℚ :=
  qdiv ((alookupList c.dataset cl).length : ℚ) ((sentenceTotal c : Nat) : ℚ)

/-- `probability` in the finiteness view.  The multiplication pass keeps the
running product finite exactly when its denominator is non-zero; the
division pass divides by `(count+1)/D` — i.e. multiplies by `D/(count+1)`
with `count+1 > 0` — which preserves finiteness (a zero `D` there makes the
divisor infinite and the quotient zero, matching IEEE only in runs where
the multiplication pass already went non-finite, since both denominators
vanish together). -/
def probabilityF (c : classifier) (words : List String) (cl : String) : Option ℚ :=
  let prob := priorProbF c cl
  let prob := words.foldl
    (fun prob w =>
      prob.bind (fun p =>
        let count : Nat :=
          match alookup c.words w with
          | some wf => alookupNat wf.counter cl
          | none => 0
        qdiv (p * ((count : ℚ) + 1)) ((wordCount c cl + totalDistinctWordCount c : Nat) : ℚ)))
    prob
  words.foldl
    (fun prob w =>
      prob.map (fun p =>
        let count : Nat :=
          match alookup c.words w with
          | some wf => alookupNat wf.counter positive + alookupNat wf.counter negative
          | none => 0
        p * (((totalWordCount c + totalDistinctWordCount c : Nat) : ℚ)) / ((count : ℚ) + 1)))
    prob

/-- `classify` in the finiteness view. -/
def classifyF (c : classifier) (sentence : String) : List (String × Option ℚ) :=
  let words := tokenize sentence
  let posProb := probabilityF c words positive
  let negProb := probabilityF c words negative
  [(positive, posProb), (negative, negProb)]

/-- Read of the score map returned by `classifyF` (`none` when absent). -/
def alookupF (m : List (String × Option ℚ)) (k : String) : Option ℚ :=
  ((m.find? (fun p => p.1 == k)).map Prod.snd).getD none

/-! ## Spec-side definitions (from the specification's words) -/

/-- The spec's `count(token, class)`: the stored counter, or zero if the
token is unknown. -/
def countTok (c : classifier) (w cl : String) : Nat :=
  match alookup c.words w with
  | some wf => alookupNat wf.counter cl
  | none => 0

/-- The spec's `classWordCount(class)`: the sum, over all known tokens, of
THAT CLASS's counter (what the spec says `wordCount` computes). -/
def classWordCountSpec (c : classifier) (cl : String) : Nat :=
  (c.words.map (fun p => alookupNat p.2.counter cl)).sum

/-- The spec's `totalWordCount()`: the sum of `classWordCount` over both
classes. -/
def totalWordCountSpec (c : classifier) : Nat :=
  classWordCountSpec c positive + classWordCountSpec c negative

/-- The spec's `totalOccurrences(token)`: the token's counter summed across
both classes. -/
def totalOccurrences (c : classifier) (w : String) : Nat :=
  countTok c w positive + countTok c w negative

/-- `probability` exactly as claim C2 words it: start from the prior,
multiply per token by `(count(w,c)+1) / (classWordCount(c)+distinctWordCount)`,
then divide per token by `(totalOccurrences(w)+1) / (totalWordCount+distinctWordCount)`,
all multiplications before all divisions, in token order. -/
def probabilitySpecStated (c : classifier) (words : List String) (cl : String) : ℚ :=
  let prob := priorProb c cl
  let prob := words.foldl
    (fun prob w =>
      prob * (((countTok c w cl : ℚ) + 1) /
        ((classWordCountSpec c cl + totalDistinctWordCount c : Nat) : ℚ)))
    prob
  words.foldl
    (fun prob w =>
      prob / (((totalOccurrences c w : ℚ) + 1) /
        ((totalWordCountSpec c + totalDistinctWordCount c : Nat) : ℚ)))
    prob

/-- Claim C2 as amended: the same two passes, but with the smoothing
denominators the implementation actually uses — `wordCount` (which sums the
positive counters whatever class is requested) and
`totalWordCount = wordCount(positive) + wordCount(negative)`. -/
def probabilitySpecAmended (c : classifier) (words : List String) (cl : String) : ℚ :=
  let prob := priorProb c cl
  let prob := words.foldl
    (fun prob w =>
      prob * (((countTok c w cl : ℚ) + 1) /
        ((wordCount c cl + totalDistinctWordCount c : Nat) : ℚ)))
    prob
  words.foldl
    (fun prob w =>
      prob / (((totalOccurrences c w : ℚ) + 1) /
        ((totalWordCount c + totalDistinctWordCount c : Nat) : ℚ)))
    prob

/-- An ASCII letter, by code point: `A`–`Z` (65–90) or `a`–`z` (97–122). -/
def isAsciiLetter (c : Char) : Bool :=
  decide ((65 ≤ c.toNat ∧ c.toNat ≤ 90) ∨ (97 ≤ c.toNat ∧ c.toNat ≤ 122))

/-- An ASCII digit, by code point: `0`–`9` (48–57). -/
def isAsciiDigit (c : Char) : Bool :=
  decide (48 ≤ c.toNat ∧ c.toNat ≤ 57)

/-- The space character, by code point (32). -/
def isSpaceChar (c : Char) : Bool :=
  decide (c.toNat = 32)

/-- `tokenize` exactly as claim C6 words it: lowercase the input, delete
every character that is not an ASCII letter, ASCII digit or space, split the
result on white-space runs, and discard stop-word tokens, preserving the
remaining tokens' left-to-right order. -/
def tokenizeSpecC6 (sentence : String) : List String :=
  let lowered := sentence.data.map Char.toLower
  let cleaned := lowered.filter (fun c => isAsciiLetter c || isAsciiDigit c || isSpaceChar c)
  let candidates := (fieldsAux isSpaceGo cleaned []).map String.mk
  candidates.filter (fun w => !(stopWords.contains w))

/-- The claim C8 `join`: re-join a token sequence with single spaces. -/
def joinTokens : List String → String
  | [] => ""
  | [t] => t
  | t :: t' :: ts => t ++ " " ++ joinTokens (t' :: ts)

/-- The training corpus of the spec's worked example:
`{"good good good": positive, "bad bad": negative}`. -/
def exampleCorpus : List (String × String) :=
  [("good good good", positive), ("bad bad", negative)]

/-- The classifier trained on `exampleCorpus` from fresh. -/
def exampleClassifier : classifier :=
  train newClassifier exampleCorpus

/-! ## Helper lemmas -/

theorem foldl_add_eq {α : Type} (f : α → Nat) (l : List α) (n : Nat) :
    l.foldl (fun acc x => acc + f x) n = n + (l.map f).sum := by
  induction l generalizing n with
  | nil => simp
  | cons a l ih => simp [List.foldl_cons, ih]; omega

theorem foldl_pair_add_eq {α : Type} (f g : α → Nat) (l : List α) (a b : Nat) :
    l.foldl (fun acc x => (acc.1 + f x, acc.2 + g x)) (a, b)
      = (a + (l.map f).sum, b + (l.map g).sum) := by
  induction l generalizing a b with
  | nil => simp
  | cons x l ih => simp [List.foldl_cons, ih]; omega

theorem wordCount_eq_sum (c : classifier) (cl : String) :
    wordCount c cl = (c.words.map (fun p => alookupNat p.2.counter positive)).sum := by
  simpa using foldl_add_eq (fun p : String × wordFrequency => alookupNat p.2.counter positive) c.words 0

theorem totalDistinctWordCount_eq_sum (c : classifier) :
    totalDistinctWordCount c
      = (c.words.map (fun p => zeroOneTransform (alookupNat p.2.counter positive))).sum
        + (c.words.map (fun p => zeroOneTransform (alookupNat p.2.counter negative))).sum := by
  have h := foldl_pair_add_eq
    (fun p : String × wordFrequency => zeroOneTransform (alookupNat p.2.counter positive))
    (fun p : String × wordFrequency => zeroOneTransform (alookupNat p.2.counter negative))
    c.words 0 0
  simp only [totalDistinctWordCount, h]
  omega

/-! ## Claims -/

/-- C1: `classWordCount` (implemented as `wordCount`) is claimed to return the
requested class's total; in fact the implementation sums the POSITIVE counter
whatever class is requested.  On the spec's own example the claim fails for
the negative class: the code returns 3 where the claim requires 2. -/
theorem c1_wordCount_sums_positive_regardless_of_class :
    (∀ (c : classifier) (cl : String), wordCount c cl = classWordCountSpec c positive) ∧
    wordCount exampleClassifier positive = 3 ∧
    wordCount exampleClassifier negative = 3 ∧
    classWordCountSpec exampleClassifier positive = 3 ∧
    classWordCountSpec exampleClassifier negative = 2 := by
  refine ⟨fun c cl => ?_, by decide, by decide, by decide, by decide⟩
  rw [wordCount_eq_sum]; rfl

/-- C2 (as stated) is false: with `classWordCount`/`totalWordCount` read as
the spec defines them (per-class sums), the claimed formula disagrees with
the code on the spec's worked example, for the token list `["bad"]` and the
negative class (code: 4/5, claimed formula: 7/8). -/
theorem c2_counterexample_probability_formula :
    probability exampleClassifier ["bad"] negative ≠
      probabilitySpecStated exampleClassifier ["bad"] negative := by
  have halk : alookup exampleClassifier.words "bad"
      = some { word := "bad", counter := [(positive, 0), (negative, 2)] } := by decide
  have h2 : wordCount exampleClassifier negative = 3 := by decide
  have h3 : totalDistinctWordCount exampleClassifier = 2 := by decide
  have h4 : totalWordCount exampleClassifier = 6 := by decide
  have h5 : classWordCountSpec exampleClassifier negative = 2 := by decide
  have h6 : totalWordCountSpec exampleClassifier = 5 := by decide
  have h7 : totalOccurrences exampleClassifier "bad" = 2 := by decide
  have h8 : (alookupList exampleClassifier.dataset negative).length = 1 := by decide
  have h9 : (alookupList exampleClassifier.dataset positive).length = 1 := by decide
  have hp : priorProb exampleClassifier negative = 1 / 2 := by
    unfold priorProb; rw [h8, h9]; norm_num
  simp only [probability, probabilitySpecStated, countTok, List.foldl_cons, List.foldl_nil,
    halk, h2, h3, h4, h5, h6, h7, hp]
  have hc : alookupNat [(positive, 0), (negative, 2)] negative = 2 := by decide
  have hcp : alookupNat [(positive, 0), (negative, 2)] positive = 0 := by decide
  simp only [hc, hcp]
  norm_num

/-- C2 as amended: `probability` follows the claimed two-pass shape — prior,
then per-token multiplications, then per-token divisions, in token order —
but with the implementation's denominators: `wordCount` (which sums the
positive counters whatever class is requested) in the multiplication pass
and `wordCount(positive) + wordCount(negative)` in the division pass. -/
theorem c2_amended_probability_formula (c : classifier) (ws : List String) (cl : String) :
    probability c ws cl = probabilitySpecAmended c ws cl := by
  simp only [probability, probabilitySpecAmended]
  congr 1
  · funext prob w
    simp only [totalOccurrences, countTok]
    cases alookup c.words w <;> rfl

/-- C3: the claim says `priorProb` is explicitly guarded against division by
zero on an untrained classifier; in fact the code divides unconditionally,
and on the untrained classifier the denominator (and numerator) is zero, so
IEEE evaluation yields NaN (`none` in the finiteness view). -/
theorem c3_priorProb_unguarded_on_untrained :
    sentenceTotal newClassifier = 0 ∧
    priorProbF newClassifier positive = none ∧
    priorProbF newClassifier negative = none := by
  decide

/-- C9: the shell picks `positive` exactly when the positive score strictly
exceeds the negative score, and `negative` otherwise; in particular a tie
resolves to `negative`. -/
theorem c9_predicted_label_tiebreak (c : classifier) (s : String) :
    (mainPredict (classify c s) = positive ↔
      alookupQ (classify c s) negative < alookupQ (classify c s) positive) ∧
    (alookupQ (classify c s) positive ≤ alookupQ (classify c s) negative →
      mainPredict (classify c s) = negative) := by
  unfold mainPredict
  constructor
  · split
    · next h => exact ⟨fun _ => h, fun _ => rfl⟩
    · next h =>
      refine ⟨fun hne => absurd hne (by decide), fun hlt => absurd hlt h⟩
  · intro hle
    split
    · next h => exact absurd h (not_lt.mpr hle)
    · rfl

/-- Witness for C9 at a concrete tie: the untrained classifier scores both
classes 0 on the empty sentence, and the shell answers `negative`. -/
theorem c9_predicted_label_tiebreak_witness :
    mainPredict (classify newClassifier "") = negative := by
  refine (c9_predicted_label_tiebreak newClassifier "").2 ?_
  have h : ∀ cl, probability newClassifier (tokenize "") cl = 0 := by
    intro cl
    show priorProb newClassifier cl = 0
    unfold priorProb newClassifier alookupList alookup
    simp
  simp [classify, alookupQ, h, positive, negative]

theorem char_le_iff_toNat {a b : Char} : a ≤ b ↔ a.toNat ≤ b.toNat := by
  show a.val ≤ b.val ↔ a.val.toNat ≤ b.val.toNat
  rw [UInt32.le_def, BitVec.le_def]
  exact Iff.rfl

theorem char_eq_iff_toNat {a b : Char} : a = b ↔ a.toNat = b.toNat := by
  constructor
  · intro h; rw [h]
  · intro h
    have h2 := congrArg Char.ofNat h
    rwa [Char.ofNat_toNat, Char.ofNat_toNat] at h2

theorem keepChar_eq_spec (c : Char) :
    keepChar c = (isAsciiLetter c || isAsciiDigit c || isSpaceChar c) := by
  have h97 : ('a').toNat = 97 := rfl
  have h122 : ('z').toNat = 122 := rfl
  have h65 : ('A').toNat = 65 := rfl
  have h90 : ('Z').toNat = 90 := rfl
  have h32 : (' ').toNat = 32 := rfl
  have h48 : ('0').toNat = 48 := rfl
  have h57 : ('9').toNat = 57 := rfl
  rw [Bool.eq_iff_iff]
  simp only [keepChar, isAsciiLetter, isAsciiDigit, isSpaceChar, decide_eq_true_eq,
    Bool.or_eq_true, char_le_iff_toNat, char_eq_iff_toNat, h97, h122, h65, h90, h32, h48, h57]
  omega

/-- C6: `tokenize` lowercases, deletes every character that is not an ASCII
letter, ASCII digit or space, splits on white-space runs, and discards
stop-word tokens preserving order; on the spec's examples it yields
`["restaurant", "excellent"]` and `[]`. -/
theorem c6_tokenize_description :
    (∀ s : String, tokenize s = tokenizeSpecC6 s) ∧
    tokenize "The restaurant is excellent" = ["restaurant", "excellent"] ∧
    tokenize "The, is! a" = [] := by
  refine ⟨fun s => ?_, by decide, by decide⟩
  have hf : (s.data.map Char.toLower).filter keepChar
      = (s.data.map Char.toLower).filter
          (fun c => isAsciiLetter c || isAsciiDigit c || isSpaceChar c) :=
    List.filter_congr (fun c _ => keepChar_eq_spec c)
  simp only [tokenize, tokenizeSpecC6, fields, clenup]
  rw [← hf]
  simp only [isStopWord]


theorem alookup_cons_of_ne {α : Type} {a : String × α} {m : List (String × α)} {k : String}
    (h : (a.1 == k) = false) : alookup (a :: m) k = alookup m k := by
  unfold alookup
  rw [List.find?_cons_of_neg]
  simp [h]

theorem alookup_map_update {α : Type} (k : String) (v : α) (k' : String)
    (m : List (String × α)) :
    alookup (m.map (fun p => if p.1 == k then (k, v) else p)) k'
      = if k' = k then (if m.any (fun p => p.1 == k) then some v else none)
        else alookup m k' := by
  induction m with
  | nil => by_cases h : k' = k <;> simp [alookup, h]
  | cons a m ih =>
    by_cases ha : a.1 = k
    · by_cases hk : k' = k
      · subst hk
        simp [alookup, List.find?_cons, ha]
      · have h1 : (k == k') = false := by
          rw [beq_eq_false_iff_ne]; exact fun h => hk h.symm
        have h2 : (a.1 == k') = false := by
          rw [beq_eq_false_iff_ne, ha]; exact fun h => hk h.symm
        simp only [alookup, List.map_cons, List.find?_cons, List.any_cons] at ih ⊢
        simp only [beq_iff_eq.mpr ha, if_true, h1, h2, if_neg hk] at ih ⊢
        exact ih
    · by_cases ha' : a.1 = k'
      · have hk : ¬ k' = k := fun h => ha (ha'.trans h)
        simp [alookup, List.find?_cons, ha, ha', hk]
      · have h3 : (a.1 == k) = false := beq_eq_false_iff_ne.mpr ha
        have h4 : (a.1 == k') = false := beq_eq_false_iff_ne.mpr ha'
        have h5 : (if (a.1 == k) = true then (k, v) else a) = a := by
          rw [h3]; simp
        rw [List.map_cons, h5, alookup_cons_of_ne h4, alookup_cons_of_ne h4]
        simp only [List.any_cons, h3, Bool.false_or]
        exact ih

theorem alookup_append_new {α : Type} (k : String) (v : α) (k' : String)
    (m : List (String × α)) (hm : alookup m k' = none) :
    alookup (m ++ [(k, v)]) k' = if k' = k then some v else none := by
  have hf : m.find? (fun p => p.1 == k') = none := by
    unfold alookup at hm
    cases h : m.find? (fun p => p.1 == k') with
    | some a => rw [h] at hm; simp at hm
    | none => rfl
  unfold alookup
  rw [List.find?_append, hf, Option.none_or]
  by_cases hk : k' = k
  · subst hk
    simp [List.find?_cons]
  · have h1 : (k == k') = false := by
      rw [beq_eq_false_iff_ne]; exact fun h => hk h.symm
    simp [List.find?_cons, h1, hk]

theorem alookup_eq_none_of_not_any {α : Type} (m : List (String × α)) (k : String)
    (hany : m.any (fun p => p.1 == k) = false) : alookup m k = none := by
  unfold alookup
  rw [List.find?_eq_none.mpr, Option.map_none']
  intro x hx
  have := List.any_eq_false.mp hany x hx
  simp at this
  simp [this]

theorem alookup_aset {α : Type} (m : List (String × α)) (k k' : String) (v : α) :
    alookup (aset m k v) k' = if k' = k then some v else alookup m k' := by
  unfold aset
  split
  · next hany =>
    rw [alookup_map_update, if_pos hany]
  · next hany =>
    have hany' : m.any (fun p => p.1 == k) = false := by
      cases h : m.any (fun p => p.1 == k) with
      | false => rfl
      | true => exact absurd h hany
    by_cases hk : k' = k
    · subst hk
      rw [alookup_append_new k' v k' m (alookup_eq_none_of_not_any m k' hany'), if_pos rfl,
        if_pos rfl]
    · rw [if_neg hk]
      unfold alookup
      rw [List.find?_append]
      have h1 : List.find? (fun p => p.1 == k') [(k, v)] = none := by
        have hb : (k == k') = false := by
          rw [beq_eq_false_iff_ne]; exact fun h => hk h.symm
        simp [List.find?_cons, hb]
      rw [h1, Option.or_none]

theorem alookupNat_aset (m : List (String × Nat)) (k k' : String) (v : Nat) :
    alookupNat (aset m k v) k' = if k' = k then v else alookupNat m k' := by
  unfold alookupNat
  rw [alookup_aset]
  by_cases h : k' = k <;> simp [h]

theorem alookupList_aset (m : List (String × List String)) (k k' : String) (v : List String) :
    alookupList (aset m k v) k' = if k' = k then v else alookupList m k' := by
  unfold alookupList
  rw [alookup_aset]
  by_cases h : k' = k <;> simp [h]

theorem alookupNat_init (x : String) :
    alookupNat [(positive, 0), (negative, 0)] x = 0 := by
  unfold alookupNat alookup
  by_cases hp : positive = x
  · have b1 : (positive == x) = true := beq_iff_eq.mpr hp
    simp [List.find?_cons, b1]
  · have b1 : (positive == x) = false := beq_eq_false_iff_ne.mpr hp
    by_cases hn : negative = x
    · have b2 : (negative == x) = true := beq_iff_eq.mpr hn
      simp [List.find?_cons, b1, b2]
    · have b2 : (negative == x) = false := beq_eq_false_iff_ne.mpr hn
      simp [List.find?_cons, b1, b2]

theorem addWord_dataset (c : classifier) (w cl : String) :
    (addWord c w cl).dataset = c.dataset := rfl

theorem addSentence_words (c : classifier) (s cl : String) :
    (addSentence c s cl).words = c.words := rfl

theorem countTok_addSentence (c : classifier) (s cl0 w cl : String) :
    countTok (addSentence c s cl0) w cl = countTok c w cl := rfl

theorem countTok_eq_of_some {c : classifier} {w : String} {wf : wordFrequency}
    (h : alookup c.words w = some wf) (cl : String) :
    countTok c w cl = alookupNat wf.counter cl := by
  unfold countTok; rw [h]

theorem countTok_eq_of_none {c : classifier} {w : String}
    (h : alookup c.words w = none) (cl : String) : countTok c w cl = 0 := by
  unfold countTok; rw [h]

theorem alookup_addWord_self (c : classifier) (w cl : String) :
    alookup (addWord c w cl).words w
      = some ((fun wf : wordFrequency =>
            { wf with counter := aset wf.counter cl (alookupNat wf.counter cl + 1) })
          (match alookup c.words w with
           | some wf => wf
           | none => { word := w, counter := [(positive, 0), (negative, 0)] })) := by
  show alookup (aset c.words w _) w = _
  rw [alookup_aset, if_pos rfl]

theorem alookup_addWord_other (c : classifier) (w cl k : String) (hk : ¬ k = w) :
    alookup (addWord c w cl).words k = alookup c.words k := by
  show alookup (aset c.words w _) k = _
  rw [alookup_aset, if_neg hk]

theorem countTok_addWord (c : classifier) (w cl w' cl' : String) :
    countTok (addWord c w cl) w' cl'
      = countTok c w' cl' + (if w' = w ∧ cl' = cl then 1 else 0) := by
  by_cases hw : w' = w
  · rw [hw]
    cases halk : alookup c.words w with
    | some wf0 =>
      have hW := alookup_addWord_self c w cl
      rw [halk] at hW
      rw [countTok_eq_of_some hW cl', countTok_eq_of_some halk cl']
      show alookupNat (aset wf0.counter cl (alookupNat wf0.counter cl + 1)) cl' = _
      rw [alookupNat_aset]
      by_cases hcl : cl' = cl
      · simp [hcl]
      · simp [hcl]
    | none =>
      have hW := alookup_addWord_self c w cl
      rw [halk] at hW
      rw [countTok_eq_of_some hW cl', countTok_eq_of_none halk cl']
      show alookupNat (aset [(positive, 0), (negative, 0)] cl
        (alookupNat [(positive, 0), (negative, 0)] cl + 1)) cl' = _
      rw [alookupNat_init, alookupNat_aset]
      by_cases hcl : cl' = cl
      · simp [hcl]
      · simp [hcl, alookupNat_init]
  · rw [if_neg (fun h => hw h.1), Nat.add_zero]
    unfold countTok
    rw [alookup_addWord_other c w cl w' hw]

theorem countTok_foldl_addWord (ws : List String) (c : classifier) (cl w' cl' : String) :
    countTok (ws.foldl (fun c x => addWord c x cl) c) w' cl'
      = countTok c w' cl' + (if cl' = cl then ws.count w' else 0) := by
  induction ws generalizing c with
  | nil => simp
  | cons x ws ih =>
    rw [List.foldl_cons, ih, countTok_addWord, List.count_cons]
    by_cases hcl : cl' = cl
    · by_cases hx : w' = x
      · simp [hcl, hx]
        omega
      · have hb : (w' == x) = false := beq_eq_false_iff_ne.mpr hx
        simp [hcl, hx, hb]
        exact fun h => hx h.symm
    · simp [hcl, fun (h : w' = x ∧ cl' = cl) => hcl h.2]

theorem foldl_addWord_dataset (ws : List String) (c : classifier) (cl : String) :
    (ws.foldl (fun c x => addWord c x cl) c).dataset = c.dataset := by
  induction ws generalizing c with
  | nil => rfl
  | cons x ws ih => rw [List.foldl_cons, ih, addWord_dataset]

theorem alookupList_addSentence (c : classifier) (s cl cl' : String) :
    alookupList (addSentence c s cl).dataset cl'
      = if cl' = cl then alookupList c.dataset cl ++ [s] else alookupList c.dataset cl' := by
  unfold addSentence alookupList
  rw [alookup_aset]
  by_cases h : cl' = cl
  · simp [h, alookupList]
  · simp [h, alookupList]

/-- One unrolling of the training fold. -/
theorem train_cons (c : classifier) (p : String × String) (d : List (String × String)) :
    train c (p :: d)
      = train ((tokenize p.1).foldl (fun c w => addWord c w p.2) (addSentence c p.1 p.2)) d := rfl

/-- How many occurrences of token `w` the corpus contributes to class `cl`. -/
def corpusCount (d : List (String × String)) (w cl : String) : Nat :=
  (d.map (fun p => if p.2 = cl then (tokenize p.1).count w else 0)).sum

theorem train_countTok (d : List (String × String)) (c : classifier) (w cl : String) :
    countTok (train c d) w cl = countTok c w cl + corpusCount d w cl := by
  induction d generalizing c with
  | nil => simp [train, corpusCount]
  | cons p d ih =>
    rw [train_cons, ih, countTok_foldl_addWord, countTok_addSentence]
    simp only [corpusCount, List.map_cons, List.sum_cons]
    by_cases h : cl = p.2
    · rw [if_pos h, if_pos h.symm]
      omega
    · rw [if_neg h, if_neg (fun h2 => h h2.symm)]
      omega


theorem train_dataset_len (d : List (String × String)) (c : classifier) (cl : String) :
    (alookupList (train c d).dataset cl).length
      = (alookupList c.dataset cl).length + (d.filter (fun p => p.2 == cl)).length := by
  induction d generalizing c with
  | nil => simp [train]
  | cons p d ih =>
    rw [train_cons, ih]
    have hds : ((tokenize p.1).foldl (fun c w => addWord c w p.2)
        (addSentence c p.1 p.2)).dataset = (addSentence c p.1 p.2).dataset :=
      foldl_addWord_dataset _ _ _
    unfold alookupList at hds ⊢
    rw [hds]
    show (alookupList (addSentence c p.1 p.2).dataset cl).length + _ = _
    rw [alookupList_addSentence, List.filter_cons]
    by_cases h : cl = p.2
    · have hb : (p.2 == cl) = true := beq_iff_eq.mpr h.symm
      simp [h, hb, alookupList]
      omega
    · have hb : (p.2 == cl) = false := beq_eq_false_iff_ne.mpr (fun h2 => h h2.symm)
      simp [h, hb, alookupList]

/-- The classifier of the C5 counterexample: already trained on one negative
sentence before the doubling experiment begins. -/
def c5Start : classifier := train newClassifier [("bad bad", negative)]

/-- The corpus of the C5 counterexample. -/
def c5Corpus : List (String × String) := [("bad", negative)]

/-- C5 (as stated) is false: from a non-fresh starting state, training twice
does not double the counts relative to training once.  Starting from a
classifier that already holds `bad ↦ 2` negative occurrences, one `train` on
`{"bad": negative}` gives 3, a second gives 4 — and 4 ≠ 2·3. -/
theorem c5_counterexample_accumulation :
    ¬ (countTok (train (train c5Start c5Corpus) c5Corpus) "bad" negative
        = 2 * countTok (train c5Start c5Corpus) "bad" negative) := by
  decide

/-- C5 as amended: relative to a FRESH classifier, training twice with the
same corpus yields exactly double the per-class frequency count of every
token and exactly double the sentence-set size of every class, compared to
training once (training accumulates, it does not replace). -/
theorem c5_amended_double_training (d : List (String × String)) (w cl : String) :
    countTok (train (train newClassifier d) d) w cl
        = 2 * countTok (train newClassifier d) w cl ∧
    (alookupList (train (train newClassifier d) d).dataset cl).length
        = 2 * (alookupList (train newClassifier d).dataset cl).length := by
  have h0 : countTok newClassifier w cl = 0 := rfl
  have h0' : (alookupList newClassifier.dataset cl).length = 0 := rfl
  constructor
  · rw [train_countTok, train_countTok, h0]
    omega
  · rw [train_dataset_len, train_dataset_len, h0']
    omega

/-- C4 (as stated, for EVERY classifier state) is false: on the untrained
classifier, even an empty-tokenizing input gets non-finite scores — the
prior itself is the unguarded `0/0` (NaN, `none` in the finiteness view) —
so the scores are not the finite values the claim requires. -/
theorem c4_counterexample_untrained_scores_not_finite :
    alookupF (classifyF newClassifier "") positive = none ∧
    alookupF (classifyF newClassifier "") negative = none := by
  constructor <;> rfl

/-- C4 as amended: for every classifier holding at least one training
sentence and every input whose tokenization is empty, `classify` returns
finite, non-error scores equal to each class's prior probability. -/
theorem c4_amended_empty_tokens_yield_priors (c : classifier) (s : String)
    (hs : tokenize s = []) (ht : 0 < sentenceTotal c) :
    classifyF c s = [(positive, some (priorProb c positive)),
                     (negative, some (priorProb c negative))] := by
  have hden : ((sentenceTotal c : Nat) : ℚ) ≠ 0 := by
    rw [Nat.cast_ne_zero]
    omega
  have hprior : ∀ cl, priorProbF c cl = some (priorProb c cl) := by
    intro cl
    unfold priorProbF qdiv priorProb sentenceTotal
    rw [if_neg (by exact hden)]
  unfold classifyF
  rw [hs]
  show [(positive, priorProbF c positive), (negative, priorProbF c negative)] = _
  rw [hprior, hprior]

/-- Witness for C4 as amended: the spec's worked-example classifier on the
all-stop-words sentence gets both priors back, finite. -/
theorem c4_amended_empty_tokens_yield_priors_witness :
    classifyF exampleClassifier "The, is! a"
      = [(positive, some (priorProb exampleClassifier positive)),
         (negative, some (priorProb exampleClassifier negative))] :=
  c4_amended_empty_tokens_yield_priors exampleClassifier "The, is! a" (by decide) (by decide)

/-- The C7 invariant: every token present in the word table has counter
entries (possibly zero) for both `positive` and `negative`. -/
def wordsInv (c : classifier) : Prop :=
  ∀ p ∈ c.words, (alookup p.2.counter positive).isSome ∧ (alookup p.2.counter negative).isSome

theorem mem_aset {α : Type} {m : List (String × α)} {k : String} {v : α} {p : String × α}
    (hp : p ∈ aset m k v) : p = (k, v) ∨ p ∈ m := by
  unfold aset at hp
  split at hp
  · rcases List.mem_map.mp hp with ⟨q, hq, hfq⟩
    by_cases h : q.1 = k
    · left
      rw [← hfq, if_pos (beq_iff_eq.mpr h)]
    · right
      rw [← hfq, if_neg (by rw [beq_eq_false_iff_ne.mpr h]; exact fun h2 => Bool.false_ne_true h2)]
      exact hq
  · rcases List.mem_append.mp hp with h | h
    · right; exact h
    · left; simpa using h

theorem isSome_alookup_aset {α : Type} (m : List (String × α)) (k k' : String) (v : α)
    (h : (alookup m k').isSome) : (alookup (aset m k v) k').isSome := by
  rw [alookup_aset]
  split
  · rfl
  · exact h

theorem alookup_mem {α : Type} {m : List (String × α)} {k : String} {v : α}
    (h : alookup m k = some v) : ∃ q ∈ m, q.2 = v := by
  unfold alookup at h
  cases hf : m.find? (fun p => p.1 == k) with
  | some q =>
    rw [hf] at h
    exact ⟨q, List.mem_of_find?_eq_some hf, by simpa using h⟩
  | none => rw [hf] at h; simp at h

theorem wordsInv_addWord (c : classifier) (w cl : String) (h : wordsInv c) :
    wordsInv (addWord c w cl) := by
  intro p hp
  cases halk : alookup c.words w with
  | some wf0 =>
    have hwords : (addWord c w cl).words
        = aset c.words w
            { wf0 with counter := aset wf0.counter cl (alookupNat wf0.counter cl + 1) } := by
      unfold addWord; rw [halk]
    rw [hwords] at hp
    rcases mem_aset hp with heq | hm
    · rw [heq]
      rcases alookup_mem halk with ⟨q, hqmem, hq2⟩
      have h0 := h q hqmem
      rw [hq2] at h0
      exact ⟨isSome_alookup_aset _ _ _ _ h0.1, isSome_alookup_aset _ _ _ _ h0.2⟩
    · exact h p hm
  | none =>
    have hwords : (addWord c w cl).words
        = aset c.words w
            { word := w,
              counter := aset [(positive, 0), (negative, 0)] cl
                (alookupNat [(positive, 0), (negative, 0)] cl + 1) } := by
      unfold addWord; rw [halk]
    rw [hwords] at hp
    rcases mem_aset hp with heq | hm
    · rw [heq]
      exact ⟨isSome_alookup_aset _ _ _ _ (by decide), isSome_alookup_aset _ _ _ _ (by decide)⟩
    · exact h p hm

theorem wordsInv_addSentence (c : classifier) (s cl : String) (h : wordsInv c) :
    wordsInv (addSentence c s cl) :=
  fun p hp => h p hp

theorem wordsInv_foldl_addWord (ws : List String) (c : classifier) (cl : String)
    (h : wordsInv c) : wordsInv (ws.foldl (fun c x => addWord c x cl) c) := by
  induction ws generalizing c with
  | nil => exact h
  | cons x ws ih => exact ih _ (wordsInv_addWord c x cl h)

theorem wordsInv_train (d : List (String × String)) (c : classifier) (h : wordsInv c) :
    wordsInv (train c d) := by
  induction d generalizing c with
  | nil => exact h
  | cons p d ih =>
    rw [train_cons]
    exact ih _ (wordsInv_foldl_addWord _ _ _ (wordsInv_addSentence _ _ _ h))

theorem isSome_words_addWord (c : classifier) (w cl k : String)
    (h : (alookup c.words k).isSome) : (alookup (addWord c w cl).words k).isSome := by
  by_cases hk : k = w
  · rw [hk, alookup_addWord_self]; rfl
  · rw [alookup_addWord_other c w cl k hk]; exact h

theorem isSome_words_foldl_addWord (ws : List String) (c : classifier) (cl k : String)
    (h : (alookup c.words k).isSome) :
    (alookup (ws.foldl (fun c x => addWord c x cl) c).words k).isSome := by
  induction ws generalizing c with
  | nil => exact h
  | cons x ws ih => exact ih _ (isSome_words_addWord c x cl k h)

theorem isSome_words_train (d : List (String × String)) (c : classifier) (k : String)
    (h : (alookup c.words k).isSome) : (alookup (train c d).words k).isSome := by
  induction d generalizing c with
  | nil => exact h
  | cons p d ih =>
    rw [train_cons]
    exact ih _ (isSome_words_foldl_addWord _ _ _ _ h)

/-- C7: the frequency table's invariants.  (1) the empty table satisfies the
both-classes invariant, and (2) `addWord`, (3) `addSentence` and (4) `train`
preserve it; (5) `addWord` increments exactly its own (token, class) counter
by one and (6) leaves every other counter unchanged; counters never decrease
under (7) `addWord` or (8) `train`; the key set grows monotonically under
(9) `addWord` and (10) `train`. -/
theorem c7_frequency_table_invariants :
    wordsInv newClassifier ∧
    (∀ (c : classifier) (w cl : String), wordsInv c → wordsInv (addWord c w cl)) ∧
    (∀ (c : classifier) (s cl : String), wordsInv c → wordsInv (addSentence c s cl)) ∧
    (∀ (c : classifier) (d : List (String × String)), wordsInv c → wordsInv (train c d)) ∧
    (∀ (c : classifier) (w cl : String), countTok (addWord c w cl) w cl = countTok c w cl + 1) ∧
    (∀ (c : classifier) (w cl w' cl' : String), ¬(w' = w ∧ cl' = cl) →
        countTok (addWord c w cl) w' cl' = countTok c w' cl') ∧
    (∀ (c : classifier) (w cl w' cl' : String),
        countTok c w' cl' ≤ countTok (addWord c w cl) w' cl') ∧
    (∀ (c : classifier) (d : List (String × String)) (w cl : String),
        countTok c w cl ≤ countTok (train c d) w cl) ∧
    (∀ (c : classifier) (w cl k : String), (alookup c.words k).isSome →
        (alookup (addWord c w cl).words k).isSome) ∧
    (∀ (c : classifier) (d : List (String × String)) (k : String),
        (alookup c.words k).isSome → (alookup (train c d).words k).isSome) := by
  refine ⟨?_, wordsInv_addWord, wordsInv_addSentence, fun c d => wordsInv_train d c,
    ?_, ?_, ?_, fun c d w cl => ?_, isSome_words_addWord, fun c d k => isSome_words_train d c k⟩
  · intro p hp
    exact absurd hp (List.not_mem_nil p)
  · intro c w cl
    rw [countTok_addWord, if_pos ⟨rfl, rfl⟩]
  · intro c w cl w' cl' hne
    rw [countTok_addWord, if_neg hne, Nat.add_zero]
  · intro c w cl w' cl'
    rw [countTok_addWord]
    exact Nat.le_add_right _ _
  · rw [train_countTok]
    exact Nat.le_add_right _ _

/-- Witness for C7 at concrete inputs: each hypothesis-bearing conjunct of
the invariant theorem applied to the spec's worked-example classifier. -/
theorem c7_frequency_table_invariants_witness :
    wordsInv (addWord newClassifier "good" positive) ∧
    countTok (addWord exampleClassifier "good" positive) "bad" negative
      = countTok exampleClassifier "bad" negative ∧
    (alookup (addWord exampleClassifier "fresh" positive).words "good").isSome ∧
    (alookup (train exampleClassifier exampleCorpus).words "good").isSome :=
  ⟨c7_frequency_table_invariants.2.1 newClassifier "good" positive
    c7_frequency_table_invariants.1,
   c7_frequency_table_invariants.2.2.2.2.2.1 exampleClassifier "good" positive "bad" negative
    (by decide),
   c7_frequency_table_invariants.2.2.2.2.2.2.2.2.1 exampleClassifier "fresh" positive "good"
    (by decide),
   c7_frequency_table_invariants.2.2.2.2.2.2.2.2.2 exampleClassifier exampleCorpus "good"
    (by decide)⟩

theorem alookup_cons_self {α : Type} {a : String × α} {m : List (String × α)} {k : String}
    (h : a.1 = k) : alookup (a :: m) k = some a.2 := by
  have hb : (a.1 == k) = true := beq_iff_eq.mpr h
  unfold alookup
  simp only [List.find?_cons, hb, Option.map_some']

theorem alookup_perm {α : Type} {l₁ l₂ : List (String × α)} (hp : l₁.Perm l₂) :
    (l₁.map Prod.fst).Nodup → ∀ k, alookup l₁ k = alookup l₂ k := by
  induction hp with
  | nil => exact fun _ _ => rfl
  | cons x hperm ih =>
    intro hn k
    simp only [List.map_cons, List.nodup_cons] at hn
    by_cases hx : x.1 = k
    · rw [alookup_cons_self hx, alookup_cons_self hx]
    · rw [alookup_cons_of_ne (beq_eq_false_iff_ne.mpr hx),
        alookup_cons_of_ne (beq_eq_false_iff_ne.mpr hx)]
      exact ih hn.2 k
  | swap x y l =>
    intro hn k
    simp only [List.map_cons, List.nodup_cons, List.mem_cons] at hn
    by_cases hy : y.1 = k
    · by_cases hx : x.1 = k
      · exact absurd (hy.trans hx.symm) (fun h => hn.1 (Or.inl h))
      · rw [alookup_cons_self hy, alookup_cons_of_ne (beq_eq_false_iff_ne.mpr hx),
          alookup_cons_self hy]
    · by_cases hx : x.1 = k
      · rw [alookup_cons_of_ne (beq_eq_false_iff_ne.mpr hy), alookup_cons_self hx,
          alookup_cons_self hx]
      · rw [alookup_cons_of_ne (beq_eq_false_iff_ne.mpr hy),
          alookup_cons_of_ne (beq_eq_false_iff_ne.mpr hx),
          alookup_cons_of_ne (beq_eq_false_iff_ne.mpr hx),
          alookup_cons_of_ne (beq_eq_false_iff_ne.mpr hy)]
  | trans h12 h23 ih12 ih23 =>
    intro hn k
    have hn2 := ((h12.map Prod.fst).nodup_iff).mp hn
    rw [ih12 hn k, ih23 hn2 k]

theorem wordCount_perm (c₁ c₂ : classifier) (hp : c₁.words.Perm c₂.words) (cl : String) :
    wordCount c₁ cl = wordCount c₂ cl := by
  rw [wordCount_eq_sum, wordCount_eq_sum]
  exact (hp.map _).sum_eq

theorem totalDistinctWordCount_perm (c₁ c₂ : classifier) (hp : c₁.words.Perm c₂.words) :
    totalDistinctWordCount c₁ = totalDistinctWordCount c₂ := by
  rw [totalDistinctWordCount_eq_sum, totalDistinctWordCount_eq_sum,
    (hp.map _).sum_eq, (hp.map _).sum_eq]

theorem probability_congr (c₁ c₂ : classifier) (ws : List String) (cl : String)
    (hd : c₁.dataset = c₂.dataset)
    (hw : ∀ k, alookup c₁.words k = alookup c₂.words k)
    (hwc : ∀ cl', wordCount c₁ cl' = wordCount c₂ cl')
    (htd : totalDistinctWordCount c₁ = totalDistinctWordCount c₂) :
    probability c₁ ws cl = probability c₂ ws cl := by
  have hprior : priorProb c₁ cl = priorProb c₂ cl := by unfold priorProb; rw [hd]
  have htw : totalWordCount c₁ = totalWordCount c₂ := by
    unfold totalWordCount; rw [hwc, hwc]
  simp only [probability]
  rw [hprior]
  congr 1
  · funext prob w
    rw [hw w, htw, htd]
  · congr 1
    funext prob w
    rw [hw w, hwc, htd]

/-- C10: `classify` is deterministic and independent of the word table's
iteration order: for equal datasets and word tables that are permutations of
one another (with the well-formed unique-key property of a Go map), the
score maps coincide — the map-iterating sums `wordCount` and
`totalDistinctWordCount` are order-insensitive, and the order-sensitive part
of `probability` iterates over the token list, whose order is fixed. -/
theorem c10_classify_independent_of_map_order (c₁ c₂ : classifier) (s : String)
    (hd : c₁.dataset = c₂.dataset) (hp : c₁.words.Perm c₂.words)
    (hn : (c₁.words.map Prod.fst).Nodup) :
    classify c₁ s = classify c₂ s := by
  have hw : ∀ k, alookup c₁.words k = alookup c₂.words k := alookup_perm hp hn
  have hwc : ∀ cl', wordCount c₁ cl' = wordCount c₂ cl' := wordCount_perm c₁ c₂ hp
  have htd : totalDistinctWordCount c₁ = totalDistinctWordCount c₂ :=
    totalDistinctWordCount_perm c₁ c₂ hp
  simp only [classify]
  rw [probability_congr c₁ c₂ _ _ hd hw hwc htd, probability_congr c₁ c₂ _ _ hd hw hwc htd]

/-- Witness for C10: the worked-example classifier against the same
classifier with its word table physically reversed. -/
theorem c10_classify_independent_of_map_order_witness :
    classify exampleClassifier "good stuff"
      = classify { dataset := exampleClassifier.dataset,
                   words := exampleClassifier.words.reverse } "good stuff" :=
  c10_classify_independent_of_map_order exampleClassifier
    { dataset := exampleClassifier.dataset, words := exampleClassifier.words.reverse }
    "good stuff" rfl (List.reverse_perm _).symm (by decide)

/-! ## Tokenizer idempotence (claim C8) -/

theorem char_toNat_ofNat {n : Nat} (h : n.isValidChar) : (Char.ofNat n).toNat = n := by
  unfold Char.ofNat
  rw [dif_pos h]
  rfl

theorem toLower_eq_self_of_not_upper (c : Char)
    (h : ¬ (65 ≤ c.toNat ∧ c.toNat ≤ 90)) : Char.toLower c = c := by
  unfold Char.toLower
  rw [if_neg h]

theorem toNat_toLower_not_upper (c : Char) :
    ¬ (65 ≤ (Char.toLower c).toNat ∧ (Char.toLower c).toNat ≤ 90) := by
  by_cases h : 65 ≤ c.toNat ∧ c.toNat ≤ 90
  · have hv : (c.toNat + 32).isValidChar := Or.inl (by omega)
    have heq : Char.toLower c = Char.ofNat (c.toNat + 32) := by
      unfold Char.toLower
      rw [if_pos h]
    rw [heq, char_toNat_ofNat hv]
    omega
  · rw [toLower_eq_self_of_not_upper c h]
    exact h

theorem toLower_toLower (c : Char) :
    Char.toLower (Char.toLower c) = Char.toLower c :=
  toLower_eq_self_of_not_upper _ (toNat_toLower_not_upper c)

theorem fieldsAux_nil (p : Char → Bool) (acc : List Char) :
    fieldsAux p [] acc = if acc.isEmpty then [] else [acc.reverse] := rfl

theorem fieldsAux_cons_of_pos (p : Char → Bool) (x : Char) (ys acc : List Char)
    (h : p x = true) :
    fieldsAux p (x :: ys) acc
      = if acc.isEmpty then fieldsAux p ys [] else acc.reverse :: fieldsAux p ys [] := by
  show (if p x = true
      then if acc.isEmpty then fieldsAux p ys [] else acc.reverse :: fieldsAux p ys []
      else fieldsAux p ys (x :: acc)) = _
  rw [h, if_pos rfl]

theorem fieldsAux_cons_of_neg (p : Char → Bool) (x : Char) (ys acc : List Char)
    (h : p x = false) :
    fieldsAux p (x :: ys) acc = fieldsAux p ys (x :: acc) := by
  show (if p x = true
      then if acc.isEmpty then fieldsAux p ys [] else acc.reverse :: fieldsAux p ys []
      else fieldsAux p ys (x :: acc)) = _
  rw [h]
  simp

/-- Every piece emitted by `fieldsAux` is a non-empty run of non-separator
characters drawn from the input (or the accumulator). -/
theorem fieldsAux_mem (p : Char → Bool) :
    ∀ (xs acc : List Char), (∀ c ∈ acc, p c = false) →
      ∀ l ∈ fieldsAux p xs acc, l ≠ [] ∧ ∀ c ∈ l, p c = false ∧ (c ∈ xs ∨ c ∈ acc) := by
  intro xs
  induction xs with
  | nil =>
    intro acc hacc l hl
    rw [fieldsAux_nil] at hl
    split at hl
    · exact absurd hl (List.not_mem_nil l)
    · next hae =>
      rw [List.mem_singleton] at hl
      subst hl
      refine ⟨?_, fun c hc => ?_⟩
      · have hne : acc ≠ [] := List.isEmpty_eq_false.mp (by
          cases h : acc.isEmpty
          · rfl
          · exact absurd h hae)
        simpa using hne
      · rw [List.mem_reverse] at hc
        exact ⟨hacc c hc, Or.inr hc⟩
  | cons x xs ih =>
    intro acc hacc l hl
    cases hpx : p x with
    | true =>
      rw [fieldsAux_cons_of_pos p x xs acc hpx] at hl
      split at hl
      · rcases ih [] (by simp) l hl with ⟨hne, hc⟩
        refine ⟨hne, fun c hcl => ⟨(hc c hcl).1, ?_⟩⟩
        rcases (hc c hcl).2 with h | h
        · exact Or.inl (List.mem_cons_of_mem x h)
        · simp at h
      · next hae =>
        rcases List.mem_cons.mp hl with hl2 | hl2
        · subst hl2
          refine ⟨?_, fun c hc => ?_⟩
          · have : acc ≠ [] := List.isEmpty_eq_false.mp (by
              cases h : acc.isEmpty
              · rfl
              · exact absurd h hae)
            simpa using this
          · rw [List.mem_reverse] at hc
            exact ⟨hacc c hc, Or.inr hc⟩
        · rcases ih [] (by simp) l hl2 with ⟨hne, hc⟩
          refine ⟨hne, fun c hcl => ⟨(hc c hcl).1, ?_⟩⟩
          rcases (hc c hcl).2 with h | h
          · exact Or.inl (List.mem_cons_of_mem x h)
          · simp at h
    | false =>
      rw [fieldsAux_cons_of_neg p x xs acc hpx] at hl
      have hacc' : ∀ c ∈ x :: acc, p c = false := by
        intro c hc
        rcases List.mem_cons.mp hc with h | h
        · rw [h]; exact hpx
        · exact hacc c h
      rcases ih (x :: acc) hacc' l hl with ⟨hne, hc⟩
      refine ⟨hne, fun c hcl => ⟨(hc c hcl).1, ?_⟩⟩
      rcases (hc c hcl).2 with h | h
      · exact Or.inl (List.mem_cons_of_mem x h)
      · rcases List.mem_cons.mp h with h2 | h2
        · exact Or.inl (h2 ▸ List.mem_cons_self x xs)
        · exact Or.inr h2

/-- `fieldsAux` consumes a run of non-separator characters into the
accumulator. -/
theorem fieldsAux_append_run (p : Char → Bool) :
    ∀ (t rest acc : List Char), (∀ c ∈ t, p c = false) →
      fieldsAux p (t ++ rest) acc = fieldsAux p rest (t.reverse ++ acc) := by
  intro t
  induction t with
  | nil => intro rest acc _; simp
  | cons x t ih =>
    intro rest acc ht
    have hpx : p x = false := ht x (List.mem_cons_self x t)
    rw [List.cons_append, fieldsAux_cons_of_neg p x (t ++ rest) acc hpx,
      ih rest (x :: acc) (fun c hc => ht c (List.mem_cons_of_mem x hc))]
    simp

theorem joinTokens_cons_cons (t t' : String) (ts : List String) :
    (joinTokens (t :: t' :: ts)).data = t.data ++ ' ' :: (joinTokens (t' :: ts)).data := by
  show (t ++ " " ++ joinTokens (t' :: ts)).data = _
  rw [String.data_append, String.data_append]
  simp

theorem fields_joinTokens (ts : List String)
    (h : ∀ t ∈ ts, t.data ≠ [] ∧ ∀ c ∈ t.data, isSpaceGo c = false) :
    fields (joinTokens ts) = ts := by
  induction ts with
  | nil => rfl
  | cons t ts ih =>
    cases ts with
    | nil =>
      have ht := h t (List.mem_cons_self t [])
      show (fieldsAux isSpaceGo (joinTokens [t]).data []).map String.mk = [t]
      have hj : (joinTokens [t]).data = t.data := rfl
      rw [hj]
      have h1 : fieldsAux isSpaceGo t.data [] = fieldsAux isSpaceGo [] (t.data.reverse ++ []) := by
        have h2 := fieldsAux_append_run isSpaceGo t.data [] [] ht.2
        rwa [List.append_nil] at h2
      rw [h1, List.append_nil, fieldsAux_nil, if_neg ?hne, List.reverse_reverse]
      · rfl
      case hne =>
        rw [Bool.not_eq_true, List.isEmpty_eq_false]
        simpa using ht.1
    | cons t' ts' =>
      have ht := h t (List.mem_cons_self t _)
      have hrest : ∀ u ∈ t' :: ts', u.data ≠ [] ∧ ∀ c ∈ u.data, isSpaceGo c = false :=
        fun u hu => h u (List.mem_cons_of_mem t hu)
      show (fieldsAux isSpaceGo (joinTokens (t :: t' :: ts')).data []).map String.mk = _
      rw [joinTokens_cons_cons,
        fieldsAux_append_run isSpaceGo t.data (' ' :: (joinTokens (t' :: ts')).data) [] ht.2,
        fieldsAux_cons_of_pos isSpaceGo ' ' _ _ (by decide), if_neg ?hne2,
        List.append_nil, List.reverse_reverse, List.map_cons]
      · have ih2 : List.map String.mk
            (fieldsAux isSpaceGo (joinTokens (t' :: ts')).data []) = t' :: ts' := ih hrest
        rw [ih2]
      case hne2 =>
        rw [Bool.not_eq_true, List.isEmpty_eq_false, List.append_nil]
        simpa using ht.1

theorem mem_joinTokens_data (ts : List String) :
    ∀ c ∈ (joinTokens ts).data, c = ' ' ∨ ∃ t ∈ ts, c ∈ t.data := by
  induction ts with
  | nil =>
    intro c hc
    simp [joinTokens] at hc
  | cons t ts ih =>
    cases ts with
    | nil =>
      intro c hc
      exact Or.inr ⟨t, List.mem_cons_self t [], hc⟩
    | cons t' ts' =>
      intro c hc
      rw [joinTokens_cons_cons] at hc
      rcases List.mem_append.mp hc with h | h
      · exact Or.inr ⟨t, List.mem_cons_self t _, h⟩
      · rcases List.mem_cons.mp h with h2 | h2
        · exact Or.inl h2
        · rcases ih c h2 with h3 | ⟨u, hu, hcu⟩
          · exact Or.inl h3
          · exact Or.inr ⟨u, List.mem_cons_of_mem t hu, hcu⟩

/-- Every token produced by `tokenize` is non-empty, is not a stop word, and
consists of kept, already-lowercase, non-white-space characters. -/
theorem tokenize_token_props (s : String) :
    ∀ t ∈ tokenize s, t.data ≠ [] ∧ isStopWord t = false ∧
      ∀ c ∈ t.data, isSpaceGo c = false ∧ keepChar c = true ∧ Char.toLower c = c := by
  intro t ht
  unfold tokenize at ht
  rw [List.mem_filter] at ht
  obtain ⟨htf, hstop⟩ := ht
  unfold fields at htf
  rw [List.mem_map] at htf
  obtain ⟨l, hlmem, hlt⟩ := htf
  have hcl : (clenup s).data = (s.data.map Char.toLower).filter keepChar := rfl
  rcases fieldsAux_mem isSpaceGo (clenup s).data [] (by simp) l hlmem with ⟨hne, hchars⟩
  have htd : t.data = l := by rw [← hlt]
  refine ⟨by rw [htd]; exact hne, by simpa using hstop, fun c hc => ?_⟩
  rw [htd] at hc
  rcases hchars c hc with ⟨hsp, hmem | hmem⟩
  · rw [hcl, List.mem_filter] at hmem
    obtain ⟨hmap, hkeep⟩ := hmem
    rw [List.mem_map] at hmap
    obtain ⟨c₀, _, hc₀⟩ := hmap
    exact ⟨hsp, hkeep, by rw [← hc₀]; exact toLower_toLower c₀⟩
  · simp at hmem

/-- C8: tokenization is idempotent on already-normalized input — re-joining
the tokens of any string with single spaces and tokenizing again returns the
same token sequence. -/
theorem c8_tokenize_idempotent_on_rejoin (s : String) :
    tokenize (joinTokens (tokenize s)) = tokenize s := by
  have htoks := tokenize_token_props s
  have hjoin : ∀ c ∈ (joinTokens (tokenize s)).data,
      Char.toLower c = c ∧ keepChar c = true := by
    intro c hc
    rcases mem_joinTokens_data (tokenize s) c hc with h | ⟨t, htmem, hct⟩
    · subst h
      exact ⟨by decide, by decide⟩
    · rcases htoks t htmem with ⟨_, _, hprops⟩
      rcases hprops c hct with ⟨_, hkeep, hlower⟩
      exact ⟨hlower, hkeep⟩
  have hclen : clenup (joinTokens (tokenize s)) = joinTokens (tokenize s) := by
    unfold clenup
    have h1 : List.map Char.toLower (joinTokens (tokenize s)).data
        = List.map id (joinTokens (tokenize s)).data :=
      List.map_congr_left (fun c hc => (hjoin c hc).1)
    rw [h1, List.map_id,
      List.filter_eq_self.mpr (fun c hc => (hjoin c hc).2)]
  show (fields (clenup (joinTokens (tokenize s)))).filter (fun w => !isStopWord w)
      = tokenize s
  rw [hclen,
    fields_joinTokens (tokenize s)
      (fun t ht => ⟨(htoks t ht).1, fun c hc => ((htoks t ht).2.2 c hc).1⟩)]
  exact List.filter_eq_self.mpr (fun t ht => by rw [(htoks t ht).2.1]; rfl)
